import Mathlib

/-
Verification development for the STCPSCE static analyzer (finder.go).

The Go tool builds a generic tree (`Ast`) from a Go source file via reflection
(`BuildAst`): every node carries a `Label` string (field-name prefix, dynamic
type, and selected scalar fields such as Name/Kind/Tok/Op), a string-keyed
attribute map, and an ordered child list.  The analysis functions dispatch on
`strings.Contains(Label, ...)` and on the `Name`/`Tok` attributes only; source
positions and the remaining scalar attributes are never consulted, so they are
elided from the embedded trees.

Faithfulness notes on the embedding:
- Go slice indexing out of range panics; every such access is modelled with
  `l[i]?` in the `Option` monad, `none` meaning the Go program crashes.
- Go's `container/list`: `Remove(e)` sets `e.next = nil`, so a
  `for e := l.Front(); e != nil; e = e.Next()` loop that removes the current
  element terminates right after the removal.  The loops of `trimList`,
  `expendKernels`, `findGetOrPutStateList` and the selector-reduction loop all
  have this shape; the embedded versions reproduce the early stop.
- Go map lookup of a missing key yields the zero value: `Attrs[k]` gives `""`,
  `GetStateMap[f]` gives a nil slice.  `reflect.DeepEqual` distinguishes a nil
  slice from an empty one, so the string-to-positions maps are embedded as
  association lists with an `Option`-valued lookup.
- `strings.Contains` is embedded as `strContains` over the character lists of
  the strings.
-/

set_option maxHeartbeats 4000000
set_option maxRecDepth 4096

inductive Ast where
  | node (label : String) (attrs : List (String × String)) (children : List Ast)

def Ast.label : Ast → String
  | Ast.node l _ _ => l

def Ast.attrs : Ast → List (String × String)
  | Ast.node _ a _ => a

def Ast.children : Ast → List Ast
  | Ast.node _ _ c => c

def listIsPrefixOf : List Char → List Char → Bool
  | [], _ => true
  | _ :: _, [] => false
  | a :: as, b :: bs => a == b && listIsPrefixOf as bs

def subListCheck (needle : List Char) : List Char → Bool
  | [] => needle.isEmpty
  | c :: rest => listIsPrefixOf needle (c :: rest) || subListCheck needle rest

/-- Embedding of Go `strings.Contains(s, pat)`. -/
def strContains (s pat : String) : Bool :=
  subListCheck pat.data s.data

/-- Go `Attrs[k]`: map lookup, `""` when the key is absent. -/
def lookupAttr : List (String × String) → String → String
  | [], _ => ""
  | (k', v) :: rest, k => if k' == k then v else lookupAttr rest k

def Ast.attr (a : Ast) (k : String) : String :=
  lookupAttr a.attrs k

/-- finder.go `isBasicLabel`: trackable nodes are identifiers and selector
expressions, except under a `Fun`/`Key`/`Type` label fragment. -/
def isBasicLabel (a : Ast) : Bool :=
  if strContains a.label "Fun" then false
  else if strContains a.label "Key" then false
  else if strContains a.label "Type" then false
  else if strContains a.label "*ast.Ident" then true
  else if strContains a.label "*ast.SelectorExpr" then true
  else false

mutual
/-- finder.go `astNodeEqual`: name-bearing labels compare by the `Name`
attribute; otherwise arity plus pointwise recursive comparison. -/
def astNodeEqual : Ast → Ast → Bool
  | Ast.node l1 a1 c1, Ast.node l2 a2 c2 =>
    if strContains l1 "Name" && strContains l2 "Name" then
      lookupAttr a1 "Name" == lookupAttr a2 "Name"
    else
      c1.length == c2.length && astListEqual c1 c2
/-- The child-list loop of `astNodeEqual` (lengths are checked by the caller). -/
def astListEqual : List Ast → List Ast → Bool
  | [], [] => true
  | _ :: _, [] => false
  | [], _ :: _ => false
  | x :: xs, y :: ys => astNodeEqual x y && astListEqual xs ys
end

/-- A `for e := labels.Front(); ...` membership scan comparing `a` against each
element, in the argument order the Go code uses. -/
def anyEqual (a : Ast) (l : List Ast) : Bool :=
  l.any (fun e => astNodeEqual a e)

mutual
/-- finder.go `addLabelsInConditionStatement`: collect every basic label in the
whole subtree (the function is applied to the entire `if` statement). -/
def addLabelsInConditionStatement : Ast → List Ast
  | Ast.node _ _ cs => addLabelsInConditionList cs
def addLabelsInConditionList : List Ast → List Ast
  | [] => []
  | c :: cs =>
    (if isBasicLabel c then [c] else addLabelsInConditionStatement c) ++
      addLabelsInConditionList cs
end

mutual
/-- finder.go `addLabelsInLeftValue` (same body as the condition collector). -/
def addLabelsInLeftValue : Ast → List Ast
  | Ast.node _ _ cs => addLabelsInLeftValueList cs
def addLabelsInLeftValueList : List Ast → List Ast
  | [] => []
  | c :: cs =>
    (if isBasicLabel c then [c] else addLabelsInLeftValue c) ++
      addLabelsInLeftValueList cs
end

/-- finder.go `checkLabelsInAssignStatementLeftHandedSide`: true iff some
first-level child of the LHS node equals some tracked label. -/
def checkLabelsInAssignStatementLeftHandedSide (a : Ast) (labels : List Ast) : Bool :=
  a.children.any (fun c => anyEqual c labels)

/-- Child loop of finder.go `checkLabelsInAssignStatementRightHandedSide`.
A `BasicLit` child returns false immediately; an identifier child returns false
when it equals a function argument or a declared label (otherwise the loop
continues); a `CallExpr` child decides on its first argument only (`return true`
sits inside the first iteration of the argument loop); `Children[1]` of a
`CallExpr` child panics (`none`) when absent; an exhausted loop returns true. -/
def checkRHSGo : List Ast → List Ast → List Ast → Option Bool
  | [], _, _ => some true
  | c :: cs, args, labels =>
    if strContains c.label "BasicLit" then some false
    else if strContains c.label "*ast.Ident" then
      if anyEqual c args || anyEqual c labels then some false
      else checkRHSGo cs args labels
    else if strContains c.label "CallExpr" then
      match c.children[1]? with
      | none => none
      | some argsNode =>
        match argsNode.children with
        | [] => checkRHSGo cs args labels
        | z0 :: _ =>
          if anyEqual z0 args || anyEqual z0 labels then some false
          else some true
    else checkRHSGo cs args labels

/-- finder.go `checkLabelsInAssignStatementRightHandedSide`. -/
def checkLabelsInAssignStatementRightHandedSide
    (a : Ast) (functionArguments labels : List Ast) : Option Bool :=
  checkRHSGo a.children functionArguments labels

mutual
/-- Node count, used as a recursion-depth bound (fuel) for the one traversal
that descends through a grandchild index. -/
def sizeOfAst : Ast → Nat
  | Ast.node _ _ cs => 1 + sizeOfListAst cs
def sizeOfListAst : List Ast → Nat
  | [] => 0
  | c :: cs => sizeOfAst c + sizeOfListAst cs
end

/-- Child loop of finder.go `findLabelsInHalfStatements`: a `CallExpr` child is
unwrapped through its argument list `Children[1]` (panicking when absent), a
basic label is collected, any other child is recursed into.  The fuel argument
only bounds the recursion depth; `sizeOfAst` is always sufficient. -/
def flhsList : Nat → List Ast → Option (List Ast)
  | 0, _ => none
  | Nat.succ _, [] => some []
  | Nat.succ fuel, c :: cs => do
    let first ←
      if strContains c.label "CallExpr" then
        match c.children[1]? with
        | none => none
        | some n1 => flhsList fuel n1.children
      else if isBasicLabel c then some [c]
      else flhsList fuel c.children
    let rest ← flhsList fuel cs
    some (first ++ rest)

/-- finder.go `findLabelsInHalfStatements`. -/
def findLabelsInHalfStatements (a : Ast) : Option (List Ast) :=
  flhsList (sizeOfAst a + 1) a.children

/-- Inner loop of finder.go `trimList`: remove the first later element equal to
`x`; `list.Remove` nils the element's next pointer, so the scan stops there. -/
def eraseFirstEq (x : Ast) : List Ast → List Ast
  | [] => []
  | y :: ys => if astNodeEqual x y then ys else y :: eraseFirstEq x ys

def trimFuel : Nat → List Ast → List Ast
  | 0, _ => []
  | Nat.succ _, [] => []
  | Nat.succ n, x :: rest => x :: trimFuel n (eraseFirstEq x rest)

/-- finder.go `trimList`: for each surviving element in turn, drop the first
later duplicate (the inner iterator dies right after one removal). -/
def trimList (l : List Ast) : List Ast :=
  trimFuel l.length l

/-- One LHS child `z` against the working label list: remove the first matching
entry (the iterator stops after a removal); the flag records a removal. -/
def resolveLhsOne (z : Ast) : List Ast → List Ast × Bool
  | [] => ([], false)
  | e :: es =>
    if astNodeEqual z e then (es, true)
    else
      let r := resolveLhsOne z es
      (e :: r.1, r.2)

/-- The `for z := range lhs.Children` loop shared by `expendKernels` and
`findGetOrPutStateList`. -/
def resolveLhs : List Ast → List Ast → List Ast × Bool
  | [], temp => (temp, false)
  | z :: zs, temp =>
    let r1 := resolveLhsOne z temp
    let r2 := resolveLhs zs r1.1
    (r2.1, r1.2 || r2.2)

/-- Step 1 of finder.go `expendKernels`: largest index whose statement equals
the kernel (the Go loop walks from the back); `none` models the fallthrough to
index `-1`, which panics at the subsequent access. -/
def findLastEqIdx : List Ast → Ast → Option Nat
  | [], _ => none
  | c :: cs, k =>
    match findLastEqIdx cs k with
    | some i => some (i + 1)
    | none => if astNodeEqual c k then some 0 else none

/-- Step 2 of finder.go `expendKernels`: walk statements backwards from just
before the kernel while the working label list is non-empty; at an assignment,
resolve LHS children against the labels and, when something resolved, add the
RHS labels (`Children[1]`), trim, and collect the statement.  The `Nat`
argument is one past the index to examine next. -/
def expendWalk (cs : List Ast) : Nat → List Ast → List Ast → Option (List Ast)
  | 0, _, acc => some acc
  | Nat.succ x, temp, acc =>
    if temp.isEmpty then some acc
    else do
      let st ← cs[x]?
      if strContains st.label "AssignStmt" then do
        let lhs ← st.children[0]?
        let r := resolveLhs lhs.children temp
        if r.2 then do
          let rhs ← st.children[1]?
          let newLs ← findLabelsInHalfStatements rhs
          expendWalk cs x (trimList (r.1 ++ newLs)) (acc ++ [st])
        else expendWalk cs x r.1 acc
      else expendWalk cs x temp acc

/-- finder.go `expendKernels`, one kernel: locate it, seed the labels from its
`Children[1]` (the RHS of an assignment; panics for other statement shapes),
then walk backwards. -/
def expendOne (cs : List Ast) (k : Ast) : Option (List Ast) := do
  let x ← findLastEqIdx cs k
  let stx ← cs[x]?
  let rhs ← stx.children[1]?
  let seed ← findLabelsInHalfStatements rhs
  expendWalk cs x (trimList seed) [stx]

def expendKernelsGo (cs : List Ast) : List Ast → Option (List Ast)
  | [] => some []
  | k :: ks => do
    let p ← expendOne cs k
    let rest ← expendKernelsGo cs ks
    some (p ++ rest)

/-- finder.go `expendKernels` over the statement-list node. -/
def expendKernels (a : Ast) (kernels : List Ast) : Option (List Ast) :=
  expendKernelsGo a.children kernels

/-- The statement scan of finder.go `findExchangeableSentences` inside a
`List : []ast.Stmt` node, carrying the condition labels and the labels declared
with `:=` accumulated so far. -/
def scanStmts : List Ast → List Ast → List Ast → List Ast → Option (List Ast)
  | [], _, _, _ => some []
  | s :: ss, args, condL, declL =>
    if strContains s.label "IfStmt" then
      scanStmts ss args (condL ++ addLabelsInConditionStatement s) declL
    else if strContains s.label "IncDecStmt" then
      match condL with
      | [] => do
        let r ← scanStmts ss args condL declL
        some (s :: r)
      | _ :: _ => do
        let t ← s.children[0]?
        if anyEqual t condL then scanStmts ss args condL declL
        else do
          let r ← scanStmts ss args condL declL
          some (s :: r)
    else if strContains s.label "AssignStmt" then
      if s.attr "Tok" == ":=" then do
        let lhs ← s.children[0]?
        scanStmts ss args condL (declL ++ addLabelsInLeftValue lhs)
      else do
        let lhs ← s.children[0]?
        if checkLabelsInAssignStatementLeftHandedSide lhs condL then
          scanStmts ss args condL declL
        else do
          let rhs ← s.children[1]?
          let cb ← checkLabelsInAssignStatementRightHandedSide rhs args declL
          if cb then scanStmts ss args condL declL
          else do
            let r ← scanStmts ss args condL declL
            some (s :: r)
    else scanStmts ss args condL declL

mutual
/-- finder.go `findExchangeableSentences`: a `List : []ast.Stmt` node is
scanned with `scanStmts` (no descent into nested statement lists); any other
node is recursed into generically. -/
def findExchangeableSentences : Ast → List Ast → Option (List Ast)
  | Ast.node l _ cs, args =>
    if strContains l "List : []ast.Stmt" then scanStmts cs args [] []
    else fesChildren cs args
def fesChildren : List Ast → List Ast → Option (List Ast)
  | [], _ => some []
  | c :: cs, args => do
    let p ← findExchangeableSentences c args
    let r ← fesChildren cs args
    some (p ++ r)
end

/-- The first-parameter-name extraction loop shared by both analyses:
`field.Children[0].Children[0]` for each parameter field. -/
def extractArgs : List Ast → Option (List Ast)
  | [] => some []
  | f :: fs => do
    let names ← f.children[0]?
    let id ← names.children[0]?
    let r ← extractArgs fs
    some (id :: r)

/-- Argument extraction of finder.go `analyzeFunctionDeclaration`:
`Children[2].Children[0].Children[0].Children`, assuming a documented function
(`FuncDecl` children `Doc, Name, Type, Body`). -/
def getArgsPhase1 (a : Ast) : Option (List Ast) := do
  let ty ← a.children[2]?
  let params ← ty.children[0]?
  let lst ← params.children[0]?
  extractArgs lst.children

mutual
/-- finder.go `analyzeFunctionDeclaration`: on a `FuncDecl`, extract the
parameters, find the kernels, and push one expanded chain group when the
kernel list is non-empty; otherwise concatenate over the children. -/
def analyzeFunctionDeclaration : Ast → Option (List (List Ast))
  | Ast.node l at_ cs =>
    if strContains l "FuncDecl" then do
      let args ← getArgsPhase1 (Ast.node l at_ cs)
      let kernels ← findExchangeableSentences (Ast.node l at_ cs) args
      if kernels.isEmpty then some []
      else do
        let c3 ← cs[3]?
        let body ← c3.children[0]?
        let chains ← expendKernels body kernels
        some [chains]
    else afdChildren cs
def afdChildren : List Ast → Option (List (List Ast))
  | [] => some []
  | c :: cs => do
    let p ← analyzeFunctionDeclaration c
    let r ← afdChildren cs
    some (p ++ r)
end

/-- Function-name-to-positions map (`map[string][]int`); `Option`-valued lookup
so that a missing key (Go nil slice) is distinguishable under `DeepEqual`. -/
def SMap : Type := List (String × List Nat)

def smapFind : SMap → String → Option (List Nat)
  | [], _ => none
  | (k', v) :: rest, k => if k' == k then some v else smapFind rest k

/-- Go `m[k]` as used in expressions: nil behaves as the empty slice. -/
def smapGet (m : SMap) (k : String) : List Nat :=
  (smapFind m k).getD []

def smapSet : SMap → String → List Nat → SMap
  | [], k, v => [(k, v)]
  | (k', v') :: rest, k, v =>
    if k' == k then (k, v) :: rest else (k', v') :: smapSet rest k v

mutual
/-- finder.go `findGetOrPutStateExpression`: at a `CallExpr` node whose callee
child is a `SelectorExpr`, a member named exactly GetState (resp. PutState)
yields position `[0]`; a plain-identifier callee yields the callee's entry of
the map passed in (the GetState map in both sweeps); results of all children
are appended. -/
def findGetOrPutStateExpression (a : Ast) (m : SMap) (isGet : Bool) : Option (List Nat) :=
  match a with
  | Ast.node l _ cs => do
    let base ←
      if strContains l "CallExpr" then
        match cs[0]? with
        | none => none
        | some c0 =>
          if strContains c0.label "SelectorExpr" then
            match c0.children[1]? with
            | none => none
            | some c01 =>
              if isGet then
                if c01.attr "Name" == "GetState" then some [0] else some ([] : List Nat)
              else
                if c01.attr "Name" == "PutState" then some [0] else some ([] : List Nat)
          else some (smapGet m (c0.attr "Name"))
      else some ([] : List Nat)
    let rest ← fgpChildren cs m isGet
    some (base ++ rest)
def fgpChildren : List Ast → SMap → Bool → Option (List Nat)
  | [], _, _ => some []
  | c :: cs, m, isGet => do
    let p ← findGetOrPutStateExpression c m isGet
    let r ← fgpChildren cs m isGet
    some (p ++ r)
end

/-- The label-tracking pushes of finder.go `findGetOrPutStateList`: for each
active argument position, push
`stmt.Children[last].Children[0].Children[1].Children[pos]`. -/
def trackArgs (st : Ast) (ps : List Nat) : Option (List Ast) :=
  ps.mapM (fun p => do
    let lastChild ← st.children[st.children.length - 1]?
    let c0 ← lastChild.children[0]?
    let c1 ← c0.children[1]?
    c1.children[p]?)

/-- One backward step of finder.go `findGetOrPutStateList` at statement `st`. -/
def fgpStep (m : SMap) (isGet : Bool) (st : Ast) (temp : List Ast) : Option (List Ast) := do
  let argpos ← findGetOrPutStateExpression st m isGet
  if argpos.isEmpty then
    if strContains st.label "AssignStmt" then do
      let lhs ← st.children[0]?
      let r := resolveLhs lhs.children temp
      if r.2 then do
        let lastChild ← st.children[st.children.length - 1]?
        let nl ← findLabelsInHalfStatements lastChild
        some (trimList (r.1 ++ nl))
      else some r.1
    else some temp
  else do
    let newLabels ← trackArgs st argpos
    some (trimList (temp ++ newLabels))

def fgpWalkAll (m : SMap) (isGet : Bool) : List Ast → List Ast → Option (List Ast)
  | [], temp => some temp
  | st :: rest, temp => do
    let t' ← fgpStep m isGet st temp
    fgpWalkAll m isGet rest t'

/-- The selector/index reduction loop of finder.go `findGetOrPutStateList`:
the first matching label is replaced (at the back) by its `Children[0]` base
and the dead iterator ends the loop; later selector labels stay unreduced. -/
def reduceSelectors : List Ast → Option (List Ast)
  | [] => some []
  | e :: es =>
    if strContains e.label "SelectorExpr" || strContains e.label "IndexExpr" then do
      let c0 ← e.children[0]?
      some (es ++ [c0])
    else do
      let r ← reduceSelectors es
      some (e :: r)

/-- Final loop of finder.go `findGetOrPutStateList`: every parameter position
is emitted once per surviving label equal to that parameter. -/
def matchParamsGo : List Ast → Nat → List Ast → List Nat
  | [], _, _ => []
  | a :: as, i, temp =>
    (temp.filter (fun e => astNodeEqual a e)).map (fun _ => i) ++
      matchParamsGo as (i + 1) temp

def matchParams (args temp : List Ast) : List Nat :=
  matchParamsGo args 0 temp

/-- finder.go `findGetOrPutStateList` over a statement-list node. -/
def findGetOrPutStateList (a : Ast) (m : SMap) (arguments : List Ast) (isGet : Bool) :
    Option (List Nat) := do
  let temp ← fgpWalkAll m isGet a.children.reverse []
  let temp2 ← reduceSelectors temp
  some (matchParams arguments (trimList temp2))

/-- The pair of maps built by finder.go `analyzeReadWriteAPI`. -/
structure RWState where
  gmap : SMap
  pmap : SMap

/-- `Children[len-3].Attrs["Name"]` of a `FuncDecl`. -/
def getFuncName (f : Ast) : Option String := do
  let n ← f.children[f.children.length - 3]?
  some (n.attr "Name")

/-- `Children[len-2].Children[0].Children[0]` parameter extraction of
finder.go `analyzeReadWriteAPI`. -/
def getFuncArgs2 (f : Ast) : Option (List Ast) := do
  let ty ← f.children[f.children.length - 2]?
  let params ← ty.children[0]?
  let lst ← params.children[0]?
  extractArgs lst.children

/-- `Children[len-1].Children[0]`: the body statement list. -/
def getFuncBody (f : Ast) : Option Ast := do
  let b ← f.children[f.children.length - 1]?
  b.children[0]?

/-- One declaration inside a sweep of finder.go `analyzeReadWriteAPI`: the
GetState entry is recomputed and replaced when `DeepEqual` fails, then the
PutState entry likewise — the PutState recomputation receives the (updated)
GetState map, exactly as in the source. -/
def sweepFunc (f : Ast) (s : RWState) : Option (RWState × Bool) :=
  if strContains f.label "FuncDecl" then do
    let args ← getFuncArgs2 f
    let name ← getFuncName f
    let body ← getFuncBody f
    let gNew ← findGetOrPutStateList body s.gmap args true
    let gOld := smapFind s.gmap name
    let g1 := if gOld == some gNew then s.gmap else smapSet s.gmap name gNew
    let c1 := !(gOld == some gNew)
    let pNew ← findGetOrPutStateList body g1 args false
    let pOld := smapFind s.pmap name
    let p1 := if pOld == some pNew then s.pmap else smapSet s.pmap name pNew
    let c2 := !(pOld == some pNew)
    some (⟨g1, p1⟩, c1 || c2)
  else some (s, false)

/-- One full sweep over the declaration children, threading the state and
or-ing the changed flags. -/
def sweepDecls : List Ast → RWState → Option (RWState × Bool)
  | [], s => some (s, false)
  | f :: fs, s => do
    let r1 ← sweepFunc f s
    let r2 ← sweepDecls fs r1.1
    some (r2.1, r1.2 || r2.2)

/-- The `for flag := true; flag;` loop of finder.go `analyzeReadWriteAPI`,
with explicit fuel: `none` models both a crash and running out of sweeps. -/
def analyzeLoop (a : Ast) : Nat → RWState → Option RWState
  | 0, _ => none
  | Nat.succ n, s => do
    let r ← sweepDecls a.children s
    if r.2 then analyzeLoop a n r.1 else some r.1

/-- finder.go `analyzeReadWriteAPI`, starting from empty maps. -/
def analyzeReadWriteAPI (a : Ast) (fuel : Nat) : Option RWState :=
  analyzeLoop a fuel ⟨[], []⟩

/-
Concrete trees.  Node labels follow finder.go `Label`: an optional field-name
or index position, the dynamic Go type, and the Name/Kind/Tok/Op fields when
present; child order follows `BuildAst` (struct field order, nil fields
skipped).  Identifiers carry no children (`Obj` is nil for every identifier
these scenarios touch).
-/

/-- An `*ast.Ident` node under field or index position `pfx`. -/
def mkIdent (pfx name : String) : Ast :=
  Ast.node (pfx ++ " : *ast.Ident (Name: " ++ name ++ ")") [("Name", name)] []

/-- An `*ast.Field` with a single name and type `int`. -/
def mkField (pfx name : String) : Ast :=
  Ast.node (pfx ++ " : *ast.Field") []
    [Ast.node "Names : []*ast.Ident(len = 1)" [] [mkIdent "0" name],
     Ast.node "Type : *ast.Ident (Name: int)" [("Name", "int")] []]

/-- A `Type : *ast.FuncType` node with the given parameter fields. -/
def mkFuncType (lenStr : String) (fields : List Ast) : Ast :=
  Ast.node "Type : *ast.FuncType" []
    [Ast.node "Params : *ast.FieldList" []
      [Ast.node ("List : []*ast.Field(len = " ++ lenStr ++ ")") [] fields]]

/-- A `Body : *ast.BlockStmt` around a statement list. -/
def mkBody (lenStr : String) (stmts : List Ast) : Ast :=
  Ast.node "Body : *ast.BlockStmt" []
    [Ast.node ("List : []ast.Stmt(len = " ++ lenStr ++ ")") [] stmts]

/-- A `Doc : *ast.CommentGroup` child (functions in phase 1 carry one, since
`analyzeFunctionDeclaration` indexes `Children[2]`/`Children[3]`). -/
def mkDoc : Ast :=
  Ast.node "Doc : *ast.CommentGroup" []
    [Ast.node "List : []*ast.Comment(len = 1)" []
      [Ast.node "0 : *ast.Comment" [("Text", "// doc")] []]]

/- Scenario (C9): f(a, b) with body  x := a + 1; b = x  -/

def stmtXA1 : Ast :=
  Ast.node "0 : *ast.AssignStmt (Tok: :=)" [("Tok", ":=")]
    [Ast.node "Lhs : []ast.Expr(len = 1)" [] [mkIdent "0" "x"],
     Ast.node "Rhs : []ast.Expr(len = 1)" []
       [Ast.node "0 : *ast.BinaryExpr (Op: +)" [("Op", "+")]
         [mkIdent "X" "a",
          Ast.node "Y : *ast.BasicLit (Kind: INT)" [("Kind", "INT"), ("Value", "1")] []]]]

def lhsBX : Ast := Ast.node "Lhs : []ast.Expr(len = 1)" [] [mkIdent "0" "b"]

def rhsBX : Ast := Ast.node "Rhs : []ast.Expr(len = 1)" [] [mkIdent "0" "x"]

def stmtBX : Ast :=
  Ast.node "1 : *ast.AssignStmt (Tok: =)" [("Tok", "=")] [lhsBX, rhsBX]

def bodyListF9 : Ast := Ast.node "List : []ast.Stmt(len = 2)" [] [stmtXA1, stmtBX]

def funcF9 : Ast :=
  Ast.node "0 : *ast.FuncDecl" []
    [mkDoc, mkIdent "Name" "f", mkFuncType "2" [mkField "0" "a", mkField "1" "b"],
     Ast.node "Body : *ast.BlockStmt" [] [bodyListF9]]

/- Scenario (C8): body  if other { }; i++  -/

def ifOther : Ast :=
  Ast.node "0 : *ast.IfStmt" []
    [mkIdent "Cond" "other",
     Ast.node "Body : *ast.BlockStmt" [] [Ast.node "List : []ast.Stmt(len = 0)" [] []]]

def stmtIncI : Ast :=
  Ast.node "1 : *ast.IncDecStmt (Tok: ++)" [("Tok", "++")] [mkIdent "X" "i"]

def bodyListInc : Ast := Ast.node "List : []ast.Stmt(len = 2)" [] [ifOther, stmtIncI]

def funcInc : Ast :=
  Ast.node "0 : *ast.FuncDecl" []
    [mkDoc, mkIdent "Name" "g", mkFuncType "0" [],
     Ast.node "Body : *ast.BlockStmt" [] [bodyListInc]]

/- Scenario (C5): f(a) with body  if c { x = a }  -/

def stmtNestedAssign : Ast :=
  Ast.node "0 : *ast.AssignStmt (Tok: =)" [("Tok", "=")]
    [Ast.node "Lhs : []ast.Expr(len = 1)" [] [mkIdent "0" "x"],
     Ast.node "Rhs : []ast.Expr(len = 1)" [] [mkIdent "0" "a"]]

def ifNest : Ast :=
  Ast.node "0 : *ast.IfStmt" []
    [mkIdent "Cond" "c",
     Ast.node "Body : *ast.BlockStmt" []
       [Ast.node "List : []ast.Stmt(len = 1)" [] [stmtNestedAssign]]]

def bodyListNest : Ast := Ast.node "List : []ast.Stmt(len = 1)" [] [ifNest]

def funcNest : Ast :=
  Ast.node "0 : *ast.FuncDecl" []
    [mkDoc, mkIdent "Name" "f", mkFuncType "1" [mkField "0" "a"],
     Ast.node "Body : *ast.BlockStmt" [] [bodyListNest]]

def paramNestA : Ast := mkIdent "0" "a"

/- Scenario (C1): body  b = 5  (reassignment from a literal) -/

def litFive : Ast :=
  Ast.node "0 : *ast.BasicLit (Kind: INT)" [("Kind", "INT"), ("Value", "5")] []

def stmtB5 : Ast :=
  Ast.node "0 : *ast.AssignStmt (Tok: =)" [("Tok", "=")]
    [Ast.node "Lhs : []ast.Expr(len = 1)" [] [mkIdent "0" "b"],
     Ast.node "Rhs : []ast.Expr(len = 1)" [] [litFive]]

def funcLit : Ast :=
  Ast.node "0 : *ast.FuncDecl" []
    [mkDoc, mkIdent "Name" "f", mkFuncType "0" [],
     Ast.node "Body : *ast.BlockStmt" []
       [Ast.node "List : []ast.Stmt(len = 1)" [] [stmtB5]]]

/- Scenario (C6): saveAccount(account) with body
   stub.PutState(account.Key, account.Bytes)  (bare call statement),
   plus the return-wrapped variant. -/

def selAccountKey : Ast :=
  Ast.node "0 : *ast.SelectorExpr" [] [mkIdent "X" "account", mkIdent "Sel" "Key"]

def selAccountBytes : Ast :=
  Ast.node "1 : *ast.SelectorExpr" [] [mkIdent "X" "account", mkIdent "Sel" "Bytes"]

def callPutState (pfx : String) : Ast :=
  Ast.node (pfx ++ " : *ast.CallExpr") []
    [Ast.node "Fun : *ast.SelectorExpr" [] [mkIdent "X" "stub", mkIdent "Sel" "PutState"],
     Ast.node "Args : []ast.Expr(len = 2)" [] [selAccountKey, selAccountBytes]]

def stmtExprPut : Ast := Ast.node "0 : *ast.ExprStmt" [] [callPutState "X"]

def bodyListSaveBare : Ast := Ast.node "List : []ast.Stmt(len = 1)" [] [stmtExprPut]

def funcSaveBare : Ast :=
  Ast.node "0 : *ast.FuncDecl" []
    [mkIdent "Name" "saveAccount", mkFuncType "1" [mkField "0" "account"],
     Ast.node "Body : *ast.BlockStmt" [] [bodyListSaveBare]]

def declsSaveBare : Ast := Ast.node "Decls : []ast.Decl(len = 1)" [] [funcSaveBare]

def stmtRetPut : Ast :=
  Ast.node "0 : *ast.ReturnStmt" []
    [Ast.node "Results : []ast.Expr(len = 1)" [] [callPutState "0"]]

def bodyListSaveRet : Ast := Ast.node "List : []ast.Stmt(len = 1)" [] [stmtRetPut]

def funcSaveRet : Ast :=
  Ast.node "0 : *ast.FuncDecl" []
    [mkIdent "Name" "saveAccount", mkFuncType "1" [mkField "0" "account"],
     Ast.node "Body : *ast.BlockStmt" [] [bodyListSaveRet]]

def declsSaveRet : Ast := Ast.node "Decls : []ast.Decl(len = 1)" [] [funcSaveRet]

def paramAccount : Ast := mkIdent "0" "account"

/- Scenario (C7): loadAccount(id) with body  v := stub.GetState(id); return v -/

def callGetStateId : Ast :=
  Ast.node "0 : *ast.CallExpr" []
    [Ast.node "Fun : *ast.SelectorExpr" [] [mkIdent "X" "stub", mkIdent "Sel" "GetState"],
     Ast.node "Args : []ast.Expr(len = 1)" [] [mkIdent "0" "id"]]

def stmtVGet : Ast :=
  Ast.node "0 : *ast.AssignStmt (Tok: :=)" [("Tok", ":=")]
    [Ast.node "Lhs : []ast.Expr(len = 1)" [] [mkIdent "0" "v"],
     Ast.node "Rhs : []ast.Expr(len = 1)" [] [callGetStateId]]

def stmtRetV : Ast :=
  Ast.node "1 : *ast.ReturnStmt" []
    [Ast.node "Results : []ast.Expr(len = 1)" [] [mkIdent "0" "v"]]

def bodyListLoad : Ast := Ast.node "List : []ast.Stmt(len = 2)" [] [stmtVGet, stmtRetV]

def funcLoad : Ast :=
  Ast.node "0 : *ast.FuncDecl" []
    [mkIdent "Name" "loadAccount", mkFuncType "1" [mkField "0" "id"],
     Ast.node "Body : *ast.BlockStmt" [] [bodyListLoad]]

def declsLoad : Ast := Ast.node "Decls : []ast.Decl(len = 1)" [] [funcLoad]

def paramId : Ast := mkIdent "0" "id"

/- Program (C2): two mutually dependent functions on which the phase-2 sweeps
oscillate with period 2.
  func f(m) { x := h(k, m); r := stub.GetState(x) }
  func h(a, b) { r := f(a, b) }
-/

def callHKM : Ast :=
  Ast.node "0 : *ast.CallExpr" []
    [Ast.node "Fun : *ast.Ident (Name: h)" [("Name", "h")] [],
     Ast.node "Args : []ast.Expr(len = 2)" [] [mkIdent "0" "k", mkIdent "1" "m"]]

def stmtXH : Ast :=
  Ast.node "0 : *ast.AssignStmt (Tok: :=)" [("Tok", ":=")]
    [Ast.node "Lhs : []ast.Expr(len = 1)" [] [mkIdent "0" "x"],
     Ast.node "Rhs : []ast.Expr(len = 1)" [] [callHKM]]

def callGetStateX : Ast :=
  Ast.node "0 : *ast.CallExpr" []
    [Ast.node "Fun : *ast.SelectorExpr" [] [mkIdent "X" "stub", mkIdent "Sel" "GetState"],
     Ast.node "Args : []ast.Expr(len = 1)" [] [mkIdent "0" "x"]]

def stmtRGetX : Ast :=
  Ast.node "1 : *ast.AssignStmt (Tok: :=)" [("Tok", ":=")]
    [Ast.node "Lhs : []ast.Expr(len = 1)" [] [mkIdent "0" "r"],
     Ast.node "Rhs : []ast.Expr(len = 1)" [] [callGetStateX]]

def funcF2 : Ast :=
  Ast.node "0 : *ast.FuncDecl" []
    [mkIdent "Name" "f", mkFuncType "1" [mkField "0" "m"],
     mkBody "2" [stmtXH, stmtRGetX]]

def callFAB : Ast :=
  Ast.node "0 : *ast.CallExpr" []
    [Ast.node "Fun : *ast.Ident (Name: f)" [("Name", "f")] [],
     Ast.node "Args : []ast.Expr(len = 2)" [] [mkIdent "0" "a", mkIdent "1" "b"]]

def stmtRF : Ast :=
  Ast.node "0 : *ast.AssignStmt (Tok: :=)" [("Tok", ":=")]
    [Ast.node "Lhs : []ast.Expr(len = 1)" [] [mkIdent "0" "r"],
     Ast.node "Rhs : []ast.Expr(len = 1)" [] [callFAB]]

def funcH2 : Ast :=
  Ast.node "1 : *ast.FuncDecl" []
    [mkIdent "Name" "h", mkFuncType "2" [mkField "0" "a", mkField "1" "b"],
     mkBody "1" [stmtRF]]

def declsC2 : Ast := Ast.node "Decls : []ast.Decl(len = 2)" [] [funcF2, funcH2]

/-- State after the first phase-2 sweep on `declsC2`. -/
def rwS1 : RWState := ⟨[("f", [0]), ("h", [0])], [("f", []), ("h", [0])]⟩

/-- State after the second phase-2 sweep on `declsC2`. -/
def rwS2 : RWState := ⟨[("f", []), ("h", [])], [("f", []), ("h", [])]⟩

/- A trivial terminating program for the C2 witness:  func e() { }  -/

def funcE : Ast :=
  Ast.node "0 : *ast.FuncDecl" []
    [mkIdent "Name" "e", mkFuncType "0" [], mkBody "0" []]

def declsE : Ast := Ast.node "Decls : []ast.Decl(len = 1)" [] [funcE]

/-
Declarative predicates used to state the claims.
-/

/-- Two entries are not mutually structurally equal (claim C4's invariant for a
deduplicated list, read pointwise). -/
def noMutualDupPair (a b : Ast) : Prop :=
  ¬ (astNodeEqual a b = true ∧ astNodeEqual b a = true)

/-- Verdict of a single top-level RHS child under the local-resolution scan of
`checkLabelsInAssignStatementRightHandedSide`: `val b` means the scan stops
with result `b`, `pass` means the child is skipped, `crash` means the Go code
panics on `Children[1]`. -/
inductive ChildVerdict where
  | pass
  | val (b : Bool)
  | crash
deriving DecidableEq

def childVerdict (c : Ast) (args labels : List Ast) : ChildVerdict :=
  if strContains c.label "BasicLit" then ChildVerdict.val false
  else if strContains c.label "*ast.Ident" then
    if anyEqual c args || anyEqual c labels then ChildVerdict.val false
    else ChildVerdict.pass
  else if strContains c.label "CallExpr" then
    match c.children[1]? with
    | none => ChildVerdict.crash
    | some argsNode =>
      match argsNode.children with
      | [] => ChildVerdict.pass
      | z0 :: _ =>
        if anyEqual z0 args || anyEqual z0 labels then ChildVerdict.val false
        else ChildVerdict.val true
  else ChildVerdict.pass

/-- The scan of the RHS children reaches a `val false` verdict: some child
decides `false` and every earlier child is skipped. -/
def FirstDecisionFalse (cs args labels : List Ast) : Prop :=
  ∃ (i : Nat) (c : Ast), cs[i]? = some c ∧
    childVerdict c args labels = ChildVerdict.val false ∧
    ∀ (j : Nat), j < i → ∀ cj, cs[j]? = some cj →
      childVerdict cj args labels = ChildVerdict.pass

/-
Theorems.
-/

mutual
/-- Mutual structural induction over `Ast` and child lists. -/
theorem astInd (P : Ast → Prop) (Q : List Ast → Prop)
    (hnode : ∀ l a cs, Q cs → P (Ast.node l a cs))
    (hnil : Q []) (hcons : ∀ c cs, P c → Q cs → Q (c :: cs)) :
    ∀ t, P t
  | Ast.node l a cs => hnode l a cs (astIndList P Q hnode hnil hcons cs)
theorem astIndList (P : Ast → Prop) (Q : List Ast → Prop)
    (hnode : ∀ l a cs, Q cs → P (Ast.node l a cs))
    (hnil : Q []) (hcons : ∀ c cs, P c → Q cs → Q (c :: cs)) :
    ∀ cs, Q cs
  | [] => hnil
  | c :: cs =>
    hcons c cs (astInd P Q hnode hnil hcons c) (astIndList P Q hnode hnil hcons cs)
end

/-- `astNodeEqual` is reflexive. -/
theorem astNodeEqual_refl : ∀ t : Ast, astNodeEqual t t = true := by
  refine astInd (fun t => astNodeEqual t t = true) (fun cs => astListEqual cs cs = true)
    ?_ ?_ ?_
  · intro l a cs hq
    simp only [astNodeEqual]
    split
    · simp
    · simp [hq]
  · rfl
  · intro c cs hp hq
    simp [astListEqual, hp, hq]

/-- The child-list comparison agrees lengths and compares pointwise. -/
theorem astListEqual_iff : ∀ c1 c2 : List Ast, astListEqual c1 c2 = true ↔
    (c1.length = c2.length ∧ ∀ p ∈ c1.zip c2, astNodeEqual p.1 p.2 = true) := by
  intro c1
  induction c1 with
  | nil => intro c2; cases c2 <;> simp [astListEqual]
  | cons x xs ih =>
    intro c2
    cases c2 with
    | nil => simp [astListEqual]
    | cons y ys =>
      simp only [astListEqual, Bool.and_eq_true, ih ys, List.zip_cons_cons,
        List.forall_mem_cons, List.length_cons, Nat.succ_inj]
      tauto

/-- C3: `astNodeEqual` compares two name-bearing nodes by their `Name`
attribute alone (so differently named nodes are never equal), and any other
pair by equal arity plus pointwise recursive equality of the children. -/
theorem claim_C3_theorem (a b : Ast) :
    astNodeEqual a b = true ↔
      (if strContains a.label "Name" = true ∧ strContains b.label "Name" = true
       then a.attr "Name" = b.attr "Name"
       else a.children.length = b.children.length ∧
         ∀ p ∈ a.children.zip b.children, astNodeEqual p.1 p.2 = true) := by
  cases a with
  | node l1 a1 c1 =>
    cases b with
    | node l2 a2 c2 =>
      by_cases h : strContains l1 "Name" = true ∧ strContains l2 "Name" = true
      · rw [if_pos (by simpa [Ast.label] using h)]
        simp [astNodeEqual, Ast.attr, Ast.attrs, h.1, h.2]
      · rw [if_neg (by simpa [Ast.label] using h)]
        simp only [astNodeEqual, Bool.and_eq_true]
        rw [if_neg h]
        simp only [Bool.and_eq_true, beq_iff_eq, astListEqual_iff, Ast.children]
        tauto

theorem eraseFirstEq_sublist (x : Ast) : ∀ l, (eraseFirstEq x l).Sublist l := by
  intro l
  induction l with
  | nil => simp [eraseFirstEq]
  | cons y ys ih =>
    simp only [eraseFirstEq]
    split
    · exact List.sublist_cons_self y ys
    · exact List.Sublist.cons₂ y ih

theorem eraseFirstEq_length_le (x : Ast) (l : List Ast) :
    (eraseFirstEq x l).length ≤ l.length :=
  (eraseFirstEq_sublist x l).length_le

theorem trimFuel_congr : ∀ n m l, l.length ≤ n → l.length ≤ m →
    trimFuel n l = trimFuel m l := by
  intro n
  induction n with
  | zero =>
    intro m l h1 _
    have : l = [] := List.length_eq_zero.mp (Nat.le_zero.mp h1)
    subst this
    cases m <;> rfl
  | succ n ih =>
    intro m l h1 h2
    cases l with
    | nil => cases m <;> rfl
    | cons x rest =>
      cases m with
      | zero => simp at h2
      | succ m =>
        simp only [trimFuel]
        rw [ih m (eraseFirstEq x rest)
          (le_trans (eraseFirstEq_length_le x rest) (by simpa using h1))
          (le_trans (eraseFirstEq_length_le x rest) (by simpa using h2))]

theorem trimList_cons (x : Ast) (rest : List Ast) :
    trimList (x :: rest) = x :: trimList (eraseFirstEq x rest) := by
  simp only [trimList, List.length_cons, trimFuel]
  rw [trimFuel_congr rest.length (eraseFirstEq x rest).length (eraseFirstEq x rest)
    (eraseFirstEq_length_le x rest) le_rfl]

theorem trimFuel_sublist : ∀ n l, (trimFuel n l).Sublist l := by
  intro n
  induction n with
  | zero => intro l; exact List.nil_sublist l
  | succ n ih =>
    intro l
    cases l with
    | nil => simp [trimFuel]
    | cons x rest =>
      simp only [trimFuel]
      exact List.Sublist.cons₂ x ((ih (eraseFirstEq x rest)).trans (eraseFirstEq_sublist x rest))

theorem trimList_sublist (l : List Ast) : (trimList l).Sublist l :=
  trimFuel_sublist l.length l

theorem eraseFirstEq_all_ne (x : Ast) : ∀ l, l.countP (fun y => astNodeEqual x y) ≤ 1 →
    ∀ y ∈ eraseFirstEq x l, astNodeEqual x y = false := by
  intro l
  induction l with
  | nil => simp [eraseFirstEq]
  | cons z zs ih =>
    intro h y hy
    rw [List.countP_cons] at h
    simp only [eraseFirstEq] at hy
    by_cases hxz : astNodeEqual x z = true
    · rw [if_pos hxz] at hy
      rw [if_pos hxz] at h
      have h0 : zs.countP (fun y => astNodeEqual x y) = 0 := by omega
      have := List.countP_eq_zero.mp h0 y hy
      simpa using this
    · rw [if_neg hxz] at hy
      rcases List.mem_cons.mp hy with heq | hmem
      · subst heq
        simpa using hxz
      · refine ih ?_ y hmem
        rw [if_neg hxz] at h
        omega

theorem trimList_pairwise_aux : ∀ n l, l.length ≤ n →
    (∀ x ∈ l, l.countP (fun y => astNodeEqual x y) ≤ 2) →
    (trimList l).Pairwise noMutualDupPair := by
  intro n
  induction n with
  | zero =>
    intro l hl _
    have : l = [] := List.length_eq_zero.mp (Nat.le_zero.mp hl)
    subst this
    simp [trimList, trimFuel]
  | succ n ih =>
    intro l hl hcnt
    cases l with
    | nil => simp [trimList, trimFuel]
    | cons x rest =>
      rw [trimList_cons]
      rw [List.pairwise_cons]
      constructor
      · intro b hb
        have hbmem : b ∈ eraseFirstEq x rest :=
          (trimList_sublist (eraseFirstEq x rest)).subset hb
        have hxb : astNodeEqual x b = false := by
          refine eraseFirstEq_all_ne x rest ?_ b hbmem
          have hx := hcnt x (List.mem_cons_self x rest)
          rw [List.countP_cons] at hx
          simp only [astNodeEqual_refl, if_pos] at hx
          omega
        intro hdup
        rw [hdup.1] at hxb
        cases hxb
      · refine ih (eraseFirstEq x rest) ?_ ?_
        · exact le_trans (eraseFirstEq_length_le x rest) (by simpa using hl)
        · intro z hz
          have hsub : (eraseFirstEq x rest).Sublist (x :: rest) :=
            (eraseFirstEq_sublist x rest).trans (List.sublist_cons_self x rest)
          have hz2 : z ∈ x :: rest := hsub.subset hz
          have hmono := hsub.countP_le (fun y => astNodeEqual z y)
          have := hcnt z hz2
          omega

/-- C4 (amended): `trimList` removes, per retained entry, only the first later
duplicate; when every entry of the input is structurally equal to at most one
other entry (count including itself at most 2), the result contains no two
mutually equal entries. -/
theorem claim_C4_theorem (l : List Ast)
    (h : ∀ x ∈ l, l.countP (fun y => astNodeEqual x y) ≤ 2) :
    (trimList l).Pairwise noMutualDupPair :=
  trimList_pairwise_aux l.length l le_rfl h

/-- C4 witness: a two-entry list with distinct names satisfies the hypothesis
and is deduplicated. -/
theorem claim_C4_witness :
    (trimList [mkIdent "0" "a", mkIdent "0" "b"]).Pairwise noMutualDupPair :=
  claim_C4_theorem [mkIdent "0" "a", mkIdent "0" "b"] (by decide)

/-- C4 counterexample: on three mutually equal entries, `trimList` keeps two of
them (the inner iterator dies after the first removal), so the deduplication
claimed for every input list fails. -/
theorem claim_C4_counterexample :
    trimList [mkIdent "0" "a", mkIdent "0" "a", mkIdent "0" "a"] =
      [mkIdent "0" "a", mkIdent "0" "a"] ∧
    ¬ (trimList [mkIdent "0" "a", mkIdent "0" "a", mkIdent "0" "a"]).Pairwise
        noMutualDupPair := by
  refine ⟨rfl, ?_⟩
  intro h
  rw [show trimList [mkIdent "0" "a", mkIdent "0" "a", mkIdent "0" "a"] =
      [mkIdent "0" "a", mkIdent "0" "a"] from rfl] at h
  have hpair := (List.pairwise_cons.mp h).1 (mkIdent "0" "a") (List.mem_cons_self _ _)
  exact hpair ⟨astNodeEqual_refl _, astNodeEqual_refl _⟩

theorem optBind_eq_some {α β : Type _} {x : Option α} {f : α → Option β} {b : β} :
    (x >>= f) = some b ↔ ∃ a, x = some a ∧ f a = some b := by
  cases x <;> simp

theorem scanStmts_sublist : ∀ ss args condL declL out,
    scanStmts ss args condL declL = some out → out.Sublist ss := by
  intro ss
  induction ss with
  | nil =>
    intro args condL declL out h
    simp only [scanStmts, Option.some_inj] at h
    subst h
    exact List.nil_sublist []
  | cons s ss ih =>
    intro args condL declL out h
    simp only [scanStmts] at h
    split at h
    · exact (ih _ _ _ _ h).cons s
    · split at h
      · -- increment/decrement statement: match on the condition labels
        split at h
        · rw [optBind_eq_some] at h
          obtain ⟨r, hr, heq⟩ := h
          simp only [Option.some_inj] at heq
          subst heq
          exact (ih _ _ _ _ hr).cons₂ s
        · rw [optBind_eq_some] at h
          obtain ⟨t, _, h⟩ := h
          split at h
          · exact (ih _ _ _ _ h).cons s
          · rw [optBind_eq_some] at h
            obtain ⟨r, hr, heq⟩ := h
            simp only [Option.some_inj] at heq
            subst heq
            exact (ih _ _ _ _ hr).cons₂ s
      · split at h
        · -- assignment statement: declare vs reassign
          split at h
          · rw [optBind_eq_some] at h
            obtain ⟨lhs, _, h⟩ := h
            exact (ih _ _ _ _ h).cons s
          · rw [optBind_eq_some] at h
            obtain ⟨lhs, _, h⟩ := h
            split at h
            · exact (ih _ _ _ _ h).cons s
            · rw [optBind_eq_some] at h
              obtain ⟨rhs, _, h⟩ := h
              rw [optBind_eq_some] at h
              obtain ⟨cb, _, h⟩ := h
              split at h
              · exact (ih _ _ _ _ h).cons s
              · rw [optBind_eq_some] at h
                obtain ⟨r, hr, heq⟩ := h
                simp only [Option.some_inj] at heq
                subst heq
                exact (ih _ _ _ _ hr).cons₂ s
        · exact (ih _ _ _ _ h).cons s

/-- C5 (amended): on a statement-list node the detector emits only direct
children of that node (as a sublist, hence in source order); it never descends
into nested statement sequences, so statements inside `if`/loop/switch bodies
are never candidates of an enclosing function. -/
theorem claim_C5_theorem (t : Ast) (args out : List Ast)
    (hlist : strContains t.label "List : []ast.Stmt" = true)
    (h : findExchangeableSentences t args = some out) : out.Sublist t.children := by
  cases t with
  | node l a cs =>
    simp only [Ast.label] at hlist
    simp only [findExchangeableSentences, hlist, if_true] at h
    simpa [Ast.children] using scanStmts_sublist cs args [] [] out h

/-- C5 witness: the C8 scenario body, scanned as a statement list, emits a
sublist of its own children. -/
theorem claim_C5_witness : [stmtIncI].Sublist bodyListInc.children :=
  claim_C5_theorem bodyListInc [] [stmtIncI] rfl rfl

/-- C5 counterexample: for `f(a) { if c { x = a } }` the detector reports no
candidate at all, although the nested statement `x = a`, had its scope been
scanned as the claim states (fresh label sets, same per-statement rules),
would be a candidate. -/
theorem claim_C5_counterexample :
    findExchangeableSentences funcNest [paramNestA] = some [] ∧
    scanStmts [stmtNestedAssign] [paramNestA] [] [] = some [stmtNestedAssign] :=
  ⟨rfl, rfl⟩

theorem expendWalk_shape : ∀ n cs temp acc r, expendWalk cs n temp acc = some r →
    ∃ t, r = acc ++ t := by
  intro n
  induction n with
  | zero =>
    intro cs temp acc r h
    simp only [expendWalk, Option.some_inj] at h
    exact ⟨[], by simp [← h]⟩
  | succ n ih =>
    intro cs temp acc r h
    simp only [expendWalk] at h
    split at h
    · simp only [Option.some_inj] at h
      exact ⟨[], by simp [← h]⟩
    · rw [optBind_eq_some] at h
      obtain ⟨st, hst, h⟩ := h
      split at h
      · rw [optBind_eq_some] at h
        obtain ⟨lhs, hlhs, h⟩ := h
        split at h
        · rw [optBind_eq_some] at h
          obtain ⟨rhs, hrhs, h⟩ := h
          rw [optBind_eq_some] at h
          obtain ⟨newLs, hnew, h⟩ := h
          obtain ⟨t, ht⟩ := ih _ _ _ _ h
          exact ⟨[st] ++ t, by simp [ht]⟩
        · exact ih _ _ _ _ h
      · exact ih _ _ _ _ h

theorem expendOne_ne_nil : ∀ cs k r, expendOne cs k = some r → r ≠ [] := by
  intro cs k r h
  simp only [expendOne] at h
  rw [optBind_eq_some] at h; obtain ⟨x, _, h⟩ := h
  rw [optBind_eq_some] at h; obtain ⟨stx, _, h⟩ := h
  rw [optBind_eq_some] at h; obtain ⟨rhs, _, h⟩ := h
  rw [optBind_eq_some] at h; obtain ⟨seed, _, h⟩ := h
  obtain ⟨t, ht⟩ := expendWalk_shape _ _ _ _ _ h
  subst ht
  simp

theorem expendKernelsGo_ne_nil : ∀ cs k ks r, expendKernelsGo cs (k :: ks) = some r →
    r ≠ [] := by
  intro cs k ks r h
  simp only [expendKernelsGo] at h
  rw [optBind_eq_some] at h; obtain ⟨p, hp, h⟩ := h
  rw [optBind_eq_some] at h; obtain ⟨rest, _, heq⟩ := h
  simp only [Option.some_inj] at heq
  subst heq
  intro hc
  rcases List.append_eq_nil.mp hc with ⟨h1, _⟩
  exact expendOne_ne_nil cs k p hp h1

/-- C10: the phase-1 result never contains an empty chain group — a function
whose body yields no kernel contributes no entry at all
(`analyzeFunctionDeclaration` pushes a group only for a non-empty kernel list,
and an expanded group always contains at least the kernel itself). -/
theorem claim_C10_theorem : ∀ t res, analyzeFunctionDeclaration t = some res →
    ([] : List Ast) ∉ res := by
  intro t
  refine astInd
    (fun t => ∀ res, analyzeFunctionDeclaration t = some res → ([] : List Ast) ∉ res)
    (fun cs => ∀ res, afdChildren cs = some res → ([] : List Ast) ∉ res) ?_ ?_ ?_ t
  · intro l a cs hq res h
    simp only [analyzeFunctionDeclaration] at h
    split at h
    · rw [optBind_eq_some] at h; obtain ⟨args, _, h⟩ := h
      rw [optBind_eq_some] at h; obtain ⟨kernels, hk, h⟩ := h
      split at h
      next hemp =>
        simp only [Option.some_inj] at h
        subst h
        simp
      next hemp =>
        rw [optBind_eq_some] at h; obtain ⟨c3, _, h⟩ := h
        rw [optBind_eq_some] at h; obtain ⟨body, _, h⟩ := h
        rw [optBind_eq_some] at h; obtain ⟨chains, hch, heq⟩ := h
        simp only [Option.some_inj] at heq
        subst heq
        intro hmem
        simp only [List.mem_singleton] at hmem
        cases kernels with
        | nil => simp at hemp
        | cons k ks =>
          exact expendKernelsGo_ne_nil _ k ks chains
            (by simpa [expendKernels] using hch) hmem.symm
    · exact hq res h
  · intro res h
    simp only [afdChildren, Option.some_inj] at h
    subst h
    simp
  · intro c cs hp hq res h
    simp only [afdChildren] at h
    rw [optBind_eq_some] at h; obtain ⟨p, hpe, h⟩ := h
    rw [optBind_eq_some] at h; obtain ⟨r, hre, heq⟩ := h
    simp only [Option.some_inj] at heq
    subst heq
    intro hmem
    rcases List.mem_append.mp hmem with h1 | h2
    · exact hp p hpe h1
    · exact hq r hre h2

/-- C10 witness: the C9 function yields one non-empty chain group and indeed no
empty entry. -/
theorem claim_C10_witness : ([] : List Ast) ∉ [[stmtBX, stmtXA1]] :=
  claim_C10_theorem funcF9 [[stmtBX, stmtXA1]] rfl

theorem optSomeBind {α β : Type _} (a : α) (f : α → Option β) : (some a >>= f) = f a := rfl

theorem checkLHS_false_iff (a : Ast) (labels : List Ast) :
    checkLabelsInAssignStatementLeftHandedSide a labels = false ↔
      ∀ c ∈ a.children, ∀ e ∈ labels, astNodeEqual c e = false := by
  simp [checkLabelsInAssignStatementLeftHandedSide, anyEqual, List.any_eq_false,
    Bool.not_eq_true]

/-- One step of the RHS scan agrees with the per-child verdict. -/
theorem checkRHSGo_cons (c : Ast) (cs args labels : List Ast) :
    checkRHSGo (c :: cs) args labels =
      match childVerdict c args labels with
      | ChildVerdict.crash => none
      | ChildVerdict.val b => some b
      | ChildVerdict.pass => checkRHSGo cs args labels := by
  by_cases h1 : strContains c.label "BasicLit" = true
  · simp [checkRHSGo, childVerdict, h1]
  · by_cases h2 : strContains c.label "*ast.Ident" = true
    · by_cases h3 : (anyEqual c args || anyEqual c labels) = true
      · simp [checkRHSGo, childVerdict, h1, h2, h3]
      · simp [checkRHSGo, childVerdict, h1, h2, h3]
    · by_cases h4 : strContains c.label "CallExpr" = true
      · cases h5 : c.children[1]? with
        | none => simp [checkRHSGo, childVerdict, h1, h2, h4, h5]
        | some argsNode =>
          cases h6 : argsNode.children with
          | nil => simp [checkRHSGo, childVerdict, h1, h2, h4, h5, h6]
          | cons z0 zs =>
            by_cases h7 : (anyEqual z0 args || anyEqual z0 labels) = true
            · simp [checkRHSGo, childVerdict, h1, h2, h4, h5, h6, h7]
            · simp [checkRHSGo, childVerdict, h1, h2, h4, h5, h6, h7]
      · simp [checkRHSGo, childVerdict, h1, h2, h4]

theorem firstDecisionFalse_nil (args labels : List Ast) :
    ¬ FirstDecisionFalse [] args labels := by
  rintro ⟨i, c, hc, -, -⟩
  simp at hc

theorem firstDecisionFalse_cons (c : Ast) (cs args labels : List Ast) :
    FirstDecisionFalse (c :: cs) args labels ↔
      (childVerdict c args labels = ChildVerdict.val false ∨
        (childVerdict c args labels = ChildVerdict.pass ∧
          FirstDecisionFalse cs args labels)) := by
  constructor
  · rintro ⟨i, d, hd, hv, hmin⟩
    cases i with
    | zero =>
      left
      simp only [List.getElem?_cons_zero, Option.some_inj] at hd
      subst hd
      exact hv
    | succ i =>
      right
      refine ⟨hmin 0 (Nat.succ_pos i) c List.getElem?_cons_zero, ?_⟩
      refine ⟨i, d, by simpa using hd, hv, ?_⟩
      intro j hj cj hcj
      exact hmin (j + 1) (by omega) cj (by simpa using hcj)
  · rintro (hv | ⟨hp, i, d, hd, hv, hmin⟩)
    · exact ⟨0, c, List.getElem?_cons_zero, hv, fun j hj => absurd hj (Nat.not_lt_zero j)⟩
    · refine ⟨i + 1, d, by simpa using hd, hv, ?_⟩
      intro j hj cj hcj
      cases j with
      | zero =>
        simp only [List.getElem?_cons_zero, Option.some_inj] at hcj
        subst hcj
        exact hp
      | succ j =>
        exact hmin j (by omega) cj (by simpa using hcj)

/-- The RHS scan returns `false` exactly when its first decisive child decides
`false` (all earlier children skipped). -/
theorem checkRHSGo_false_iff : ∀ cs args labels,
    checkRHSGo cs args labels = some false ↔ FirstDecisionFalse cs args labels := by
  intro cs
  induction cs with
  | nil =>
    intro args labels
    exact iff_of_false (by simp [checkRHSGo]) (firstDecisionFalse_nil args labels)
  | cons c cs ih =>
    intro args labels
    rw [checkRHSGo_cons, firstDecisionFalse_cons]
    cases hv : childVerdict c args labels with
    | pass => simpa [hv] using ih args labels
    | val b => cases b <;> simp [hv]
    | crash => simp [hv]

/-- C1 (amended): a reassignment statement at the head of a scope scan is
marked a candidate iff (a) no first-level LHS child structurally equals a
collected condition label, and (b) the left-to-right scan of the RHS children
reaches a false verdict: a literal child or a child equal to a parameter or
declared label decides "locally resolvable" (false, hence candidate); an
identifier child that resolves to nothing is skipped; a call child decides on
its first argument only (matching: false, otherwise true, blocking candidacy);
a scan that ends without a decision blocks candidacy. -/
theorem claim_C1_theorem (s : Ast) (ss args condL declL out : List Ast) (lhs rhs : Ast)
    (hIf : strContains s.label "IfStmt" = false)
    (hInc : strContains s.label "IncDecStmt" = false)
    (hAsg : strContains s.label "AssignStmt" = true)
    (hTok : ¬ s.attr "Tok" = ":=")
    (hL : s.children[0]? = some lhs)
    (hR : s.children[1]? = some rhs)
    (hscan : scanStmts (s :: ss) args condL declL = some out) :
    (∃ out', scanStmts ss args condL declL = some out' ∧ out = s :: out') ↔
      ((∀ c ∈ lhs.children, ∀ e ∈ condL, astNodeEqual c e = false) ∧
        FirstDecisionFalse rhs.children args declL) := by
  have hTok' : (s.attr "Tok" == ":=") = false := by
    simpa using hTok
  simp only [scanStmts] at hscan
  rw [hIf] at hscan
  rw [if_neg Bool.false_ne_true] at hscan
  rw [hInc] at hscan
  rw [if_neg Bool.false_ne_true] at hscan
  rw [hAsg] at hscan
  rw [if_pos rfl] at hscan
  rw [hTok'] at hscan
  rw [if_neg Bool.false_ne_true] at hscan
  rw [hL, optSomeBind] at hscan
  by_cases hlhs : checkLabelsInAssignStatementLeftHandedSide lhs condL = true
  · rw [if_pos hlhs] at hscan
    refine iff_of_false ?_ ?_
    · rintro ⟨out', h1, h2⟩
      rw [hscan] at h1
      simp only [Option.some_inj] at h1
      subst h1
      exact absurd (congrArg List.length h2) (by simp)
    · rintro ⟨hall, -⟩
      have hfalse : checkLabelsInAssignStatementLeftHandedSide lhs condL = false :=
        (checkLHS_false_iff lhs condL).mpr hall
      rw [hfalse] at hlhs
      exact Bool.false_ne_true hlhs
  · have hlhs' : checkLabelsInAssignStatementLeftHandedSide lhs condL = false :=
      Bool.eq_false_iff.mpr hlhs
    rw [if_neg hlhs] at hscan
    rw [hR, optSomeBind] at hscan
    cases hcb : checkLabelsInAssignStatementRightHandedSide rhs args declL with
    | none =>
      rw [hcb] at hscan
      simp at hscan
    | some cb =>
      rw [hcb, optSomeBind] at hscan
      cases cb with
      | true =>
        rw [if_pos rfl] at hscan
        refine iff_of_false ?_ ?_
        · rintro ⟨out', h1, h2⟩
          rw [hscan] at h1
          simp only [Option.some_inj] at h1
          subst h1
          exact absurd (congrArg List.length h2) (by simp)
        · rintro ⟨-, hfdf⟩
          have hgo : checkRHSGo rhs.children args declL = some false :=
            (checkRHSGo_false_iff rhs.children args declL).mpr hfdf
          have hcb' : checkRHSGo rhs.children args declL = some true := hcb
          rw [hgo] at hcb'
          simp at hcb'
      | false =>
        rw [if_neg Bool.false_ne_true] at hscan
        rw [optBind_eq_some] at hscan
        obtain ⟨r, hr, heq⟩ := hscan
        simp only [Option.some_inj] at heq
        refine iff_of_true ⟨r, hr, heq.symm⟩ ?_
        refine ⟨(checkLHS_false_iff lhs condL).mp hlhs', ?_⟩
        exact (checkRHSGo_false_iff rhs.children args declL).mp hcb

/-- C1 witness: instantiation at the reassignment `b = x` with parameters
`a, b`, no condition labels, and declared label `x`: both sides of the
equivalence hold, and the statement is a candidate. -/
theorem claim_C1_witness :
    (∃ out', scanStmts [] [mkIdent "0" "a", mkIdent "0" "b"] [] [mkIdent "0" "x"] =
        some out' ∧ [stmtBX] = stmtBX :: out') ↔
      ((∀ c ∈ lhsBX.children, ∀ e ∈ ([] : List Ast), astNodeEqual c e = false) ∧
        FirstDecisionFalse rhsBX.children [mkIdent "0" "a", mkIdent "0" "b"]
          [mkIdent "0" "x"]) :=
  claim_C1_theorem stmtBX [] [mkIdent "0" "a", mkIdent "0" "b"] [] [mkIdent "0" "x"]
    [stmtBX] lhsBX rhsBX rfl rfl rfl (by decide) rfl rfl rfl

/-- C1 counterexample: for `f() { b = 5 }` the RHS's only top-level child is a
literal, which the claim says disqualifies the statement; the code instead
returns false from the RHS check at the literal, and the statement is reported
as a candidate. -/
theorem claim_C1_counterexample :
    findExchangeableSentences funcLit [] = some [stmtB5] ∧
    strContains litFive.label "BasicLit" = true :=
  ⟨rfl, rfl⟩

theorem sweepFunc_unchanged : ∀ f s s', sweepFunc f s = some (s', false) → s' = s := by
  intro f s s' h
  simp only [sweepFunc] at h
  split at h
  · rw [optBind_eq_some] at h; obtain ⟨args, _, h⟩ := h
    rw [optBind_eq_some] at h; obtain ⟨name, _, h⟩ := h
    rw [optBind_eq_some] at h; obtain ⟨body, _, h⟩ := h
    rw [optBind_eq_some] at h; obtain ⟨gNew, _, h⟩ := h
    rw [optBind_eq_some] at h; obtain ⟨pNew, _, h⟩ := h
    simp only [Option.some_inj, Prod.mk.injEq] at h
    obtain ⟨hstate, hflag⟩ := h
    rcases Bool.or_eq_false_iff.mp hflag with ⟨h1, h2⟩
    have hc1 : (smapFind s.gmap name == some gNew) = true := by simpa using h1
    have hc2 : (smapFind s.pmap name == some pNew) = true := by simpa using h2
    rw [if_pos hc1, if_pos hc2] at hstate
    exact hstate.symm
  · simp only [Option.some_inj, Prod.mk.injEq] at h
    exact h.1.symm

theorem sweepDecls_unchanged : ∀ cs s s', sweepDecls cs s = some (s', false) → s' = s := by
  intro cs
  induction cs with
  | nil =>
    intro s s' h
    simp only [sweepDecls, Option.some_inj, Prod.mk.injEq] at h
    exact h.1.symm
  | cons f fs ih =>
    intro s s' h
    simp only [sweepDecls] at h
    rw [optBind_eq_some] at h
    obtain ⟨r1, hr1, h⟩ := h
    rw [optBind_eq_some] at h
    obtain ⟨r2, hr2, heq⟩ := h
    obtain ⟨s1, b1⟩ := r1
    obtain ⟨s2, b2⟩ := r2
    simp only [Option.some_inj, Prod.mk.injEq] at heq
    obtain ⟨hs, hflag⟩ := heq
    rcases Bool.or_eq_false_iff.mp hflag with ⟨hb1, hb2⟩
    subst hb1
    subst hb2
    have e1 : s1 = s := sweepFunc_unchanged f s s1 hr1
    have e2 : s2 = s1 := ih s1 s2 hr2
    rw [← hs, e2, e1]

/-- C2 (amended): the stopping condition holds as claimed — whenever the
phase-2 loop returns a state, one further full sweep recomputes every
function's GetState and PutState entry to exactly the stored value (change
flag false); but the sweep values are not monotone across sweeps, and on
mutually dependent functions the loop never reaches such a state (it
oscillates, see the counterexample), so termination on every input fails. -/
theorem claim_C2_theorem : ∀ a fuel s res, analyzeLoop a fuel s = some res →
    sweepDecls a.children res = some (res, false) := by
  intro a fuel
  induction fuel with
  | zero =>
    intro s res h
    simp [analyzeLoop] at h
  | succ n ih =>
    intro s res h
    simp only [analyzeLoop] at h
    rw [optBind_eq_some] at h
    obtain ⟨r, hr, h⟩ := h
    obtain ⟨s1, b1⟩ := r
    by_cases hc : b1 = true
    · subst hc
      rw [if_pos rfl] at h
      exact ih s1 res h
    · have hb : b1 = false := Bool.eq_false_iff.mpr hc
      subst hb
      rw [if_neg Bool.false_ne_true] at h
      simp only [Option.some_inj] at h
      subst h
      have e := sweepDecls_unchanged a.children s s1 hr
      rw [e] at hr ⊢
      exact hr

/-- C2 witness: on the trivial program `func e() { }` the loop stops after two
sweeps, and a further sweep indeed changes nothing. -/
theorem claim_C2_witness :
    sweepDecls declsE.children ⟨[("e", [])], [("e", [])]⟩ =
      some (⟨[("e", [])], [("e", [])]⟩, false) :=
  claim_C2_theorem declsE 3 ⟨[], []⟩ ⟨[("e", [])], [("e", [])]⟩ rfl

/-- C2 counterexample: on the two mutually dependent functions of `declsC2`
the first sweep sets the GetState entry of `f` to `[0]`, the second sweep
resets it to `[]` — not a superset — and a further sweep returns to the first
state, so the sweep iteration oscillates with period 2 and the loop never
terminates. -/
theorem claim_C2_counterexample :
    sweepDecls declsC2.children ⟨[], []⟩ = some (rwS1, true) ∧
    sweepDecls declsC2.children rwS1 = some (rwS2, true) ∧
    sweepDecls declsC2.children rwS2 = some (rwS1, true) ∧
    smapFind rwS1.gmap "f" = some [0] ∧
    smapFind rwS2.gmap "f" = some [] ∧
    (0 : Nat) ∈ smapGet rwS1.gmap "f" ∧ ¬ (0 : Nat) ∈ smapGet rwS2.gmap "f" :=
  ⟨rfl, rfl, rfl, rfl, rfl, by decide, by decide⟩

/-- C6 (amended): with the `PutState` call in a position the tracking index
chain can reach (first element of the statement's last child list, as in a
`return` statement), phase 2 computes PutState set `{0}` for `saveAccount`:
the first argument `account.Key` is tracked, reduced to its base identifier
`account`, and matched against formal parameter 0; the loop then reaches a
fixed point with GetState set `[]` and PutState set `[0]`. -/
theorem claim_C6_theorem :
    findGetOrPutStateList bodyListSaveRet [] [paramAccount] false = some [0] ∧
    analyzeReadWriteAPI declsSaveRet 3 =
      some ⟨[("saveAccount", [])], [("saveAccount", [0])]⟩ :=
  ⟨rfl, rfl⟩

/-- C6 counterexample: on the scenario exactly as claimed — the `PutState`
call as a bare expression statement — the tracking index chain
`Children[last].Children[0].Children[1].Children[0]` lands on the callee's
member identifier and indexes its empty child list: the Go code panics
(`none`), and the whole phase-2 sweep crashes, instead of returning `{0}`. -/
theorem claim_C6_counterexample :
    findGetOrPutStateList bodyListSaveBare [] [paramAccount] false = none ∧
    sweepDecls declsSaveBare.children ⟨[], []⟩ = none :=
  ⟨rfl, rfl⟩

/-- C7: for `loadAccount(id) { v := stub.GetState(id); return v }` the
GetState argument `id` survives the backward walk and matches parameter 0;
the fixed point gives GetState set `[0]` and PutState set `[]`. -/
theorem claim_C7_theorem :
    findGetOrPutStateList bodyListLoad [] [paramId] true = some [0] ∧
    analyzeReadWriteAPI declsLoad 3 =
      some ⟨[("loadAccount", [0])], [("loadAccount", [])]⟩ :=
  ⟨rfl, rfl⟩

/-- C8: for `if other { }; i++` (with `i` not under the if) the detector does
mark `i++` as a candidate, as the claim states; but the chain expansion reads
`Children[1]` of the increment statement, which has a single child, so the Go
code panics (`none`) instead of producing the singleton chain `[i++]`. -/
theorem claim_C8_theorem :
    findExchangeableSentences funcInc [] = some [stmtIncI] ∧
    expendKernels bodyListInc [stmtIncI] = none ∧
    analyzeFunctionDeclaration funcInc = none :=
  ⟨rfl, rfl, rfl⟩

/-- C9: for `f(a, b) { x := a + 1; b = x }` phase 1 reports `b = x` as the
only candidate and expands it to the chain `[b = x, x := a + 1]`,
nearest-first. -/
theorem claim_C9_theorem :
    findExchangeableSentences funcF9 [mkIdent "0" "a", mkIdent "0" "b"] = some [stmtBX] ∧
    expendKernels bodyListF9 [stmtBX] = some [stmtBX, stmtXA1] ∧
    analyzeFunctionDeclaration funcF9 = some [[stmtBX, stmtXA1]] :=
  ⟨rfl, rfl, rfl⟩
